import Mathlib

/-!
# Verification of the options-pricing / implied-volatility core

Shallow embedding of the algorithmic core of `backend/server.py`:
the option-chain record parser, lot-size normalization, IV-percentile
arithmetic, the chain-IV aggregation stage, time-to-expiry, the
Black-Scholes pricer and vega, and the Newton-Raphson / bisection
implied-volatility solver.

Conventions:
* Python floats are modelled as exact numbers: `ℚ` for the purely
  rational data-plumbing code (parser, percentile, aggregation) and `ℝ`
  for the transcendental pricing code (`exp`, `log`, `sqrt`, `erf`).
* A Python value that may be `None`, a number or a string is modelled by
  `FieldVal`; Python truthiness is `FieldVal.truthy`.
* A `try`-block whose caught exception produces `None` is modelled by
  `Except Unit` folded into the final `Option` result.
-/

/-- A JSON-ish positional field of a vendor option-chain record:
`null`, a number, or a string (`server.py` records are `List[Any]`). -/
inductive FieldVal where
  | null : FieldVal
  | num (q : ℚ) : FieldVal
  | str (s : String) : FieldVal
deriving DecidableEq, Repr

/-- Python truthiness of a field value: `None` is falsy, a number is
truthy iff nonzero, a string is truthy iff nonempty. -/
def FieldVal.truthy : FieldVal → Bool
  | .null => false
  | .num q => q != 0
  | .str s => s != ""

/-- `record[i] if len(record) > i else None` (`server.py:491-511`). -/
def getF (record : List FieldVal) (i : ℕ) : FieldVal :=
  if i < record.length then record.getD i FieldVal.null else FieldVal.null

/-- Is the field a number? (`isinstance(strike, (int, float))`,
`server.py:492`). -/
def FieldVal.isNum : FieldVal → Bool
  | .num _ => true
  | _ => false

/-- A truthy non-number, i.e. a nonempty string: the only field value
on which the normalizing division raises `TypeError`. -/
def FieldVal.isTruthyStr : FieldVal → Bool
  | .str s => s != ""
  | _ => false

/-- `get_lot_size` (`server.py:438-451`): NIFTY=50, BANKNIFTY=15,
default 500. -/
def get_lot_size (symbol : String) : ℚ :=
  if symbol = "NIFTY" then 50
  else if symbol = "BANKNIFTY" then 15
  else 500

/-- `raw / lot_size if raw and lot_size > 0 else None`
(`server.py:515-518`).  The guard is Python truthiness of `raw`
conjoined with `lot_size > 0`; when the guard holds and `raw` is a
truthy non-number the division raises `TypeError`, modelled as
`Except.error ()` (caught by the record-level handler at
`server.py:541-543`). -/
def normalizeField (raw : FieldVal) (lot : ℚ) : Except Unit (Option ℚ) :=
  if raw.truthy ∧ 0 < lot then
    match raw with
    | .num q => .ok (some (q / lot))
    | _ => .error ()
  else .ok none

/-- The value a successfully parsed record carries in a normalized OI or
volume slot, as a function of the raw field: a nonzero number is divided
by the (positive) lot size, everything else propagates `none`.  Used to
state what `parse_option_chain_record` puts in those slots. -/
def normalizedValue (raw : FieldVal) (lot : ℚ) : Option ℚ :=
  match raw with
  | .num q => if q ≠ 0 ∧ 0 < lot then some (q / lot) else none
  | _ => none

/-- Modelled from the spec wording of the normalization step
(spec §4.1 / claim C5): "value / lot_size for OI and volume fields;
guards against lot_size ≤ 0 and missing raw values".  A present numeric
raw value is divided by a positive lot size — with no exception for a
raw value equal to 0.  Used only to compare against the source's
truthiness-guarded normalization. -/
def normalize_claim (raw : Option ℚ) (lot : ℚ) : Option ℚ :=
  match raw with
  | none => none
  | some q => if lot ≤ 0 then none else some (q / lot)

/-- One leg (call or put) of a parsed option quote (`server.py:522-539`).
`oi` and `volume` are lot-size normalized; the quote fields are passed
through untouched. -/
structure OptionLeg where
  oi : Option ℚ
  ltp : FieldVal
  bid : FieldVal
  bid_qty : FieldVal
  ask : FieldVal
  ask_qty : FieldVal
  volume : Option ℚ
deriving DecidableEq, Repr

/-- A parsed option-chain record (`server.py:520-540`). -/
structure OptionQuote where
  strike : ℚ
  call : OptionLeg
  put : OptionLeg
deriving DecidableEq, Repr

/-- `parse_option_chain_record` (`server.py:454-543`).  Returns `none`
for records shorter than 21 fields, for a missing or non-numeric strike
at index 11, and whenever one of the four normalizing divisions raises
(caught by the `except` clause at `server.py:541-543`). -/
def parse_option_chain_record (record : List FieldVal) (symbol : String) :
    Option OptionQuote :=
  if record.length < 21 then none
  else
    let lot_size := get_lot_size symbol
    let strike := getF record 11
    match strike with
    | .num k =>
      let call_oi_raw := getF record 3
      let call_ltp := getF record 4
      let call_bid := getF record 5
      let call_bid_qty := getF record 6
      let call_ask := getF record 7
      let call_ask_qty := getF record 8
      let call_vol_raw :=
        if 9 < record.length then getF record 9 else getF record 10
      let put_bid := getF record 12
      let put_bid_qty := getF record 13
      let put_ask := getF record 14
      let put_ask_qty := getF record 15
      let put_oi_raw := getF record 16
      let put_ltp := getF record 18
      let put_vol_raw := getF record 19
      match normalizeField call_oi_raw lot_size,
            normalizeField call_vol_raw lot_size,
            normalizeField put_oi_raw lot_size,
            normalizeField put_vol_raw lot_size with
      | .ok call_oi, .ok call_vol, .ok put_oi, .ok put_vol =>
        some
          { strike := k
            call :=
              { oi := call_oi, ltp := call_ltp, bid := call_bid
                bid_qty := call_bid_qty, ask := call_ask
                ask_qty := call_ask_qty, volume := call_vol }
            put :=
              { oi := put_oi, ltp := put_ltp, bid := put_bid
                bid_qty := put_bid_qty, ask := put_ask
                ask_qty := put_ask_qty, volume := put_vol } }
      | _, _, _, _ => none
    | _ => none

/-- Round a rational to the nearest integer, ties to even — the
behaviour of Python 3's builtin `round`. -/
def roundHalfEven (q : ℚ) : ℤ :=
  let f : ℤ := ⌊q⌋
  let r : ℚ := q - f
  if r < 1/2 then f
  else if 1/2 < r then f + 1
  else if f % 2 = 0 then f else f + 1

/-- Python `round(x, 2)`. -/
def round2 (q : ℚ) : ℚ := (roundHalfEven (q * 100) : ℚ) / 100

/-- `calculate_iv_percentile` (`server.py:656-697`), with the two
external inputs made explicit: `dbData` is `none` when the module-level
`db` handle is `None`, otherwise `some` of the historical IV series the
database query returns (`server.py:671-679`); `current_iv` is the
(nullable) current IV argument.  The arithmetic is
`server.py:681-693`: `none` on an empty series, otherwise
`round((days_below / total_days) * 100, 2)` with strict `<`. -/
def calculate_iv_percentile (dbData : Option (List ℚ))
    (current_iv : Option ℚ) : Option ℚ :=
  match dbData, current_iv with
  | none, _ => none
  | _, none => none
  | some historical_ivs, some civ =>
    if historical_ivs = [] then none
    else
      let days_below : ℚ := (historical_ivs.filter (fun iv => iv < civ)).length
      let total_days : ℚ := historical_ivs.length
      some (round2 (days_below / total_days * 100))

/-- `calculate_time_to_expiry` (`server.py:421-435`) with the ambient
clock made explicit: both the expiry date and `datetime.now()` are
modelled as absolute times in seconds.  `days ≤ 0` yields the
same-day-expiry floor `0.0001`, otherwise days are converted to years
by dividing by `365.25`. -/
def calculate_time_to_expiry (expirySec nowSec : ℚ) : ℚ :=
  let days := (expirySec - nowSec) / 86400
  if days ≤ 0 then 1/10000
  else days / (36525/100)

/-- The aggregation stage of `extract_iv_from_option_chain`
(`server.py:625-649`), taking as input the candidate list built by the
per-record loop (`server.py:598-623`): each candidate is
`(strike_diff, iv)` with `strike_diff = |strike - spot_price|`.
Mirrors: `none` on an empty list; stable sort by distance (Python's
`list.sort` is stable; modelled by the stable `List.insertionSort`);
keep the 10 closest; average those within 5% of spot and return
`round(avg*100, 2)`; otherwise fall back to the closest candidate's IV
(returned only when truthy, `server.py:645-647`); else `none`. -/
def extract_iv_aggregation (atm_options : List (ℚ × ℚ)) (spot_price : ℚ) :
    Option ℚ :=
  if atm_options = [] then none
  else
    let sorted := atm_options.insertionSort (fun a b => a.1 ≤ b.1)
    let atm_ivs := ((sorted.take 10).filter
      (fun p => p.1 / spot_price < 5/100)).map (fun p => p.2)
    if atm_ivs ≠ [] then
      some (round2 (atm_ivs.sum / atm_ivs.length * 100))
    else
      match sorted.head? with
      | some closest => if closest.2 ≠ 0 then some (round2 (closest.2 * 100)) else none
      | none => none

/-- Modelled from the spec wording of the aggregation step
(spec §4.4 / claim C1): select ALL candidates within 5% of spot and
average them; with none in the band fall back to the single closest
candidate; with no candidates at all return null.  Used only to compare
against the source-derived `extract_iv_aggregation`. -/
def extract_iv_aggregation_claim (atm_options : List (ℚ × ℚ))
    (spot_price : ℚ) : Option ℚ :=
  if atm_options = [] then none
  else
    let within := (atm_options.filter
      (fun p => p.1 / spot_price < 5/100)).map (fun p => p.2)
    if within ≠ [] then
      some (round2 (within.sum / within.length * 100))
    else
      match (atm_options.insertionSort (fun a b => a.1 ≤ b.1)).head? with
      | some closest => some (round2 (closest.2 * 100))
      | none => none

/-! ## The transcendental pricing core, over `ℝ` -/

open MeasureTheory intervalIntegral in
/-- The Gauss error function (Python's `math.erf`, used by `normal_cdf`,
`server.py:238`): `erf x = (2/√π) ∫ t in 0..x, exp (-t²)`. -/
noncomputable def erf (x : ℝ) : ℝ :=
  2 / Real.sqrt Real.pi * ∫ t in (0:ℝ)..x, Real.exp (-t^2)

/-- `normal_cdf` (`server.py:236-238`):
`0.5 * (1 + math.erf(x / math.sqrt(2)))`. -/
noncomputable def normal_cdf (x : ℝ) : ℝ :=
  0.5 * (1 + erf (x / Real.sqrt 2))

/-- `normal_pdf` (`server.py:241-243`):
`(1 / math.sqrt(2π)) * exp(-0.5 x²)`. -/
noncomputable def normal_pdf (x : ℝ) : ℝ :=
  1 / Real.sqrt (2 * Real.pi) * Real.exp (-0.5 * x * x)

/-- `black_scholes_price` (`server.py:246-290`).  `T ≤ 0` or `σ ≤ 0`
short-circuits to intrinsic value; otherwise the closed form, floored
at 0.  The source tests `option_type.lower() == "call"`; the side
string is modelled as already lowercase (every call site in the source
passes the literal `"call"` or `"put"`), so the test is plain
equality with `"call"`. -/
noncomputable def black_scholes_price (spot strike time_to_expiry
    risk_free_rate volatility : ℝ) (option_type : String) : ℝ :=
  if time_to_expiry ≤ 0 then
    if option_type = "call" then max (spot - strike) 0
    else max (strike - spot) 0
  else if volatility ≤ 0 then
    if option_type = "call" then max (spot - strike) 0
    else max (strike - spot) 0
  else
    let d1 := (Real.log (spot / strike) +
      (risk_free_rate + 0.5 * volatility * volatility) * time_to_expiry) /
      (volatility * Real.sqrt time_to_expiry)
    let d2 := d1 - volatility * Real.sqrt time_to_expiry
    let price :=
      if option_type = "call" then
        spot * normal_cdf d1 -
          strike * Real.exp (-risk_free_rate * time_to_expiry) * normal_cdf d2
      else
        strike * Real.exp (-risk_free_rate * time_to_expiry) * normal_cdf (-d2) -
          spot * normal_cdf (-d1)
    max price 0

/-- `black_scholes_vega` (`server.py:293-309`). -/
noncomputable def black_scholes_vega (spot strike time_to_expiry
    risk_free_rate volatility : ℝ) : ℝ :=
  if time_to_expiry ≤ 0 ∨ volatility ≤ 0 then 0
  else
    let d1 := (Real.log (spot / strike) +
      (risk_free_rate + 0.5 * volatility * volatility) * time_to_expiry) /
      (volatility * Real.sqrt time_to_expiry)
    spot * normal_pdf d1 * Real.sqrt time_to_expiry

/-- The 100-iteration loop of `calculate_iv_bisection`
(`server.py:396-408`), by fuel; fuel 0 is the post-loop
`return (vol_low + vol_high) / 2`. -/
noncomputable def bisection_loop (spot strike time_to_expiry risk_free_rate
    option_price : ℝ) (option_type : String) :
    ℕ → ℝ → ℝ → ℝ
  | 0, vol_low, vol_high => (vol_low + vol_high) / 2
  | Nat.succ n, vol_low, vol_high =>
    let vol_mid := (vol_low + vol_high) / 2
    let price_mid := black_scholes_price spot strike time_to_expiry
      risk_free_rate vol_mid option_type
    if |price_mid - option_price| < 0.0001 then vol_mid
    else if price_mid < option_price then
      bisection_loop spot strike time_to_expiry risk_free_rate option_price
        option_type n vol_mid vol_high
    else
      bisection_loop spot strike time_to_expiry risk_free_rate option_price
        option_type n vol_low vol_mid

/-- `calculate_iv_bisection` (`server.py:373-408`): `none` when the
observed price lies outside the bracket prices, else 100 bisection
steps on `[0.001, 5.0]`. -/
noncomputable def calculate_iv_bisection (spot strike time_to_expiry
    risk_free_rate option_price : ℝ) (option_type : String) : Option ℝ :=
  let vol_low : ℝ := 0.001
  let vol_high : ℝ := 5.0
  let price_low := black_scholes_price spot strike time_to_expiry
    risk_free_rate vol_low option_type
  let price_high := black_scholes_price spot strike time_to_expiry
    risk_free_rate vol_high option_type
  if option_price < price_low ∨ price_high < option_price then none
  else some (bisection_loop spot strike time_to_expiry risk_free_rate
    option_price option_type 100 vol_low vol_high)

/-- The Newton-Raphson loop of `calculate_implied_volatility`
(`server.py:345-370`), by fuel; exhausting the fuel, or a vega of
exactly 0 (the `break` at `server.py:352-354`), falls through to
bisection. -/
noncomputable def newton_loop (spot strike time_to_expiry risk_free_rate
    option_price : ℝ) (option_type : String) :
    ℕ → ℝ → Option ℝ
  | 0, _ =>
    calculate_iv_bisection spot strike time_to_expiry risk_free_rate
      option_price option_type
  | Nat.succ n, volatility =>
    let calculated_price := black_scholes_price spot strike time_to_expiry
      risk_free_rate volatility option_type
    let vega := black_scholes_vega spot strike time_to_expiry
      risk_free_rate volatility
    if vega = 0 then
      calculate_iv_bisection spot strike time_to_expiry risk_free_rate
        option_price option_type
    else
      let volatility_new := max 0.001 (min 5.0
        (volatility - (calculated_price - option_price) / vega))
      if |volatility_new - volatility| < 0.0001 then some volatility_new
      else newton_loop spot strike time_to_expiry risk_free_rate
        option_price option_type n volatility_new

/-- `calculate_implied_volatility` (`server.py:312-370`): `none` for
`T ≤ 0`, else Newton-Raphson from the initial guess `0.20` with
`max_iterations = 100`, falling back to bisection. -/
noncomputable def calculate_implied_volatility (spot strike time_to_expiry
    risk_free_rate option_price : ℝ) (option_type : String) : Option ℝ :=
  if time_to_expiry ≤ 0 then none
  else newton_loop spot strike time_to_expiry risk_free_rate option_price
    option_type 100 0.2

/-- The success predicate of the round-trip property (spec §8 / claim
C2): the solver returned a volatility within `0.001` of the true one. -/
def iv_recovers (result : Option ℝ) (sigma_true : ℝ) : Prop :=
  ∃ σ, result = some σ ∧ |σ - sigma_true| ≤ 0.001

/-- The `d1` of `black_scholes_price` specialized to the C2 analysis
inputs `S = e⁹`, `K = 1`, `T = 1`, `r = 0` as a function of the
volatility: `(ln(e⁹/1) + (0 + v²/2)·1)/(v·√1) = (9 + 0.5·v·v)/v`. -/
noncomputable def c2_d1 (v : ℝ) : ℝ := (9 + 0.5 * v * v) / v

/-- The un-floored call-price formula at the C2 analysis inputs, as a
function of the volatility. -/
noncomputable def c2_formula (v : ℝ) : ℝ :=
  Real.exp 9 * normal_cdf (c2_d1 v) - normal_cdf (c2_d1 v - v)

/-- The vega at the C2 analysis inputs, as a function of the
volatility. -/
noncomputable def c2_vega (v : ℝ) : ℝ := Real.exp 9 * normal_pdf (c2_d1 v)

/-! ## Concrete test data -/

/-- A 21-field record with a numeric strike but a truthy string in the
call-OI slot (index 3). -/
def c4_record : List FieldVal :=
  [.null, .null, .null, .str "x", .null, .null, .null, .null, .null, .null,
   .null, .num 18000, .null, .null, .null, .null, .null, .null, .null,
   .null, .null]

/-- A well-formed 21-field record whose raw call-OI (index 3) is the
number `0`. -/
def c5_record : List FieldVal :=
  [.null, .null, .null, .num 0, .null, .null, .null, .null, .null, .null,
   .null, .num 18000, .null, .null, .null, .null, .null, .null, .null,
   .null, .null]

/-- A well-formed record with call OI 100, call volume 250, strike
18000 and put volume 0. -/
def c5_witness_record : List FieldVal :=
  [.null, .null, .null, .num 100, .null, .null, .null, .null, .null,
   .num 250, .null, .num 18000, .null, .null, .null, .null, .null, .null,
   .null, .num 0, .null]

/-- A well-formed record with zero raw call OI and put volume and
nonzero call volume. -/
def c9_record : List FieldVal :=
  [.null, .null, .null, .num 0, .null, .null, .null, .null, .null,
   .num 150, .null, .num 17500, .null, .null, .null, .null, .null, .null,
   .null, .num 0, .null]

/-- The quote that `c5_witness_record` parses to. -/
def c5_quote : OptionQuote :=
  { strike := 18000
    call := { oi := some 2, ltp := .null, bid := .null, bid_qty := .null,
              ask := .null, ask_qty := .null, volume := some 5 }
    put := { oi := none, ltp := .null, bid := .null, bid_qty := .null,
             ask := .null, ask_qty := .null, volume := none } }

/-- The quote that `c9_record` parses to. -/
def c9_quote : OptionQuote :=
  { strike := 17500
    call := { oi := none, ltp := .null, bid := .null, bid_qty := .null,
              ask := .null, ask_qty := .null, volume := some (3/10) }
    put := { oi := none, ltp := .null, bid := .null, bid_qty := .null,
             ask := .null, ask_qty := .null, volume := none } }

/-- Eleven IV candidates, all within 5% of spot 100: ten at distance
0, 0.1, …, 0.9 with IV 0.10 and an eleventh at distance 1.0 with
IV 0.20. -/
def c1_candidates : List (ℚ × ℚ) :=
  [(0, 1/10), (1/10, 1/10), (2/10, 1/10), (3/10, 1/10), (4/10, 1/10),
   (5/10, 1/10), (6/10, 1/10), (7/10, 1/10), (8/10, 1/10), (9/10, 1/10),
   (1, 2/10)]

/-! ## Helper lemmas: the record parser -/

lemma get_lot_size_pos (symbol : String) : 0 < get_lot_size symbol := by
  unfold get_lot_size
  split_ifs <;> norm_num

lemma normalizeField_error_iff (v : FieldVal) (lot : ℚ) :
    normalizeField v lot = .error () ↔ (v.isTruthyStr ∧ 0 < lot) := by
  unfold normalizeField
  cases v with
  | null => simp [FieldVal.truthy, FieldVal.isTruthyStr]
  | num q => split_ifs <;> simp_all [FieldVal.truthy, FieldVal.isTruthyStr]
  | str s => by_cases hs : s = "" <;> simp [FieldVal.truthy, FieldVal.isTruthyStr, hs]

lemma normalizeField_ok (v : FieldVal) (lot : ℚ) (hlot : 0 < lot)
    (hv : ¬ v.isTruthyStr = true) :
    normalizeField v lot = .ok (normalizedValue v lot) := by
  unfold normalizeField normalizedValue
  cases v with
  | null => simp [FieldVal.truthy]
  | num q =>
    by_cases hq : q = 0 <;>
      simp [FieldVal.truthy, hq, hlot, hlot.le, le_of_lt]
  | str s => simp_all [FieldVal.truthy, FieldVal.isTruthyStr]

lemma normalizeField_cases (v : FieldVal) (lot : ℚ) (hlot : 0 < lot) :
    normalizeField v lot = .error () ∨
      normalizeField v lot = .ok (normalizedValue v lot) := by
  by_cases hv : v.isTruthyStr = true
  · exact Or.inl ((normalizeField_error_iff v lot).2 ⟨hv, hlot⟩)
  · exact Or.inr (normalizeField_ok v lot hlot hv)

lemma normalizeField_eq (v : FieldVal) (lot : ℚ) (hlot : 0 < lot) :
    normalizeField v lot =
      if v.isTruthyStr then .error () else .ok (normalizedValue v lot) := by
  by_cases hv : v.isTruthyStr = true
  · rw [if_pos hv]
    exact (normalizeField_error_iff v lot).2 ⟨hv, hlot⟩
  · rw [if_neg hv]
    exact normalizeField_ok v lot hlot hv

/-- Full characterization of the fields of a successfully parsed record. -/
lemma parse_some_fields (record : List FieldVal) (symbol : String)
    (q : OptionQuote) (h : parse_option_chain_record record symbol = some q) :
    21 ≤ record.length ∧
    (getF record 11) = FieldVal.num q.strike ∧
    q.call.oi = normalizedValue (getF record 3) (get_lot_size symbol) ∧
    q.call.volume = normalizedValue (getF record 9) (get_lot_size symbol) ∧
    q.put.oi = normalizedValue (getF record 16) (get_lot_size symbol) ∧
    q.put.volume = normalizedValue (getF record 19) (get_lot_size symbol) := by
  unfold parse_option_chain_record at h
  split at h
  · exact absurd h (by simp)
  · rename_i hlen
    have hlen' : 21 ≤ record.length := by omega
    have h9 : 9 < record.length := by omega
    rw [if_pos h9] at h
    have hlot := get_lot_size_pos symbol
    rcases hk : getF record 11 with _ | k | s <;> rw [hk] at h <;> try simp at h
    · rcases normalizeField_cases (getF record 3) (get_lot_size symbol) hlot with h3 | h3 <;>
        rcases normalizeField_cases (getF record 9) (get_lot_size symbol) hlot with h9' | h9' <;>
        rcases normalizeField_cases (getF record 16) (get_lot_size symbol) hlot with h16 | h16 <;>
        rcases normalizeField_cases (getF record 19) (get_lot_size symbol) hlot with h19 | h19 <;>
        rw [h3, h9', h16, h19] at h <;> simp at h
      subst h
      exact ⟨hlen', rfl, rfl, rfl, rfl, rfl⟩

/-- Exactly when the parser returns `none`. -/
lemma parse_none_characterization (record : List FieldVal) (symbol : String) :
    parse_option_chain_record record symbol = none ↔
      (record.length < 21 ∨ (getF record 11).isNum = false ∨
       (getF record 3).isTruthyStr = true ∨ (getF record 9).isTruthyStr = true ∨
       (getF record 16).isTruthyStr = true ∨ (getF record 19).isTruthyStr = true) := by
  have hlot := get_lot_size_pos symbol
  simp only [parse_option_chain_record]
  split
  · rename_i hlen
    simp [hlen]
  · rename_i hlen
    have h9 : 9 < record.length := by omega
    rw [if_pos h9]
    rw [normalizeField_eq _ _ hlot, normalizeField_eq _ _ hlot,
        normalizeField_eq _ _ hlot, normalizeField_eq _ _ hlot]
    rcases hk : getF record 11 with _ | k | s
    · simp [hlen, FieldVal.isNum]
    · by_cases h3 : (getF record 3).isTruthyStr = true <;>
        by_cases h9v : (getF record 9).isTruthyStr = true <;>
        by_cases h16 : (getF record 16).isTruthyStr = true <;>
        by_cases h19 : (getF record 19).isTruthyStr = true <;>
        simp [h3, h9v, h16, h19, hlen, FieldVal.isNum]
    · simp [hlen, FieldVal.isNum]

/-! ## Claim theorems: parser and data plumbing -/

/-- C4, counterexample: a 21-field record with a numeric strike still
parses to `none` when its call-OI field is a truthy non-number (the
normalizing division raises `TypeError`, caught and converted to
`None`), so "null exactly when fewer than 21 fields or bad strike" is
false as stated. -/
theorem C4_counterexample :
    parse_option_chain_record c4_record "NIFTY" = none ∧
    c4_record.length = 21 ∧
    (getF c4_record 11).isNum = true := by
  refine ⟨?_, by simp [c4_record], by simp [c4_record, getF, FieldVal.isNum]⟩
  have h : ("x" : String) ≠ "" := by decide
  simp [c4_record, parse_option_chain_record, normalizeField, getF,
    get_lot_size, FieldVal.truthy, h]

/-- C4, amended: the parser returns null exactly when the record has
fewer than 21 positional fields, or the strike field at index 11 is
missing or not numeric, or one of the four raw OI/volume fields
(indices 3, 9, 16, 19) is a truthy non-number — in which case the
normalizing division raises internally and the exception handler
degrades the result to null; the parser never propagates an
exception. -/
theorem C4_parse_null_conditions (record : List FieldVal) (symbol : String) :
    parse_option_chain_record record symbol = none ↔
      (record.length < 21 ∨ (getF record 11).isNum = false ∨
       (getF record 3).isTruthyStr = true ∨ (getF record 9).isTruthyStr = true ∨
       (getF record 16).isTruthyStr = true ∨ (getF record 19).isTruthyStr = true) :=
  parse_none_characterization record symbol

/-- C5, counterexample: in a well-formed NIFTY record whose raw call-OI
field is the number `0` (present, with lot size 50 > 0), the parser
stores `none` for the normalized call OI, not `0 / 50 = 0` as the
claimed normalization `normalize_claim` would produce. -/
theorem C5_counterexample :
    (parse_option_chain_record c5_record "NIFTY").map (fun q => q.call.oi) =
      some none ∧
    normalize_claim (some 0) (get_lot_size "NIFTY") = some 0 := by
  constructor
  · norm_num [c5_record, parse_option_chain_record, normalizeField, getF,
      get_lot_size, FieldVal.truthy]
  · norm_num [normalize_claim, get_lot_size]

/-- C5, amended: for every successfully parsed record the four
normalized OI/volume slots hold the raw field divided by the symbol's
lot size when that raw field is a nonzero number (and the lot size is
positive), and `none` when the raw value is missing or zero; lot sizes
are NIFTY=50, BANKNIFTY=15, default 500, and always positive. -/
theorem C5_lot_size_normalization (record : List FieldVal) (symbol : String)
    (q : OptionQuote) (h : parse_option_chain_record record symbol = some q) :
    q.call.oi = normalizedValue (getF record 3) (get_lot_size symbol) ∧
    q.call.volume = normalizedValue (getF record 9) (get_lot_size symbol) ∧
    q.put.oi = normalizedValue (getF record 16) (get_lot_size symbol) ∧
    q.put.volume = normalizedValue (getF record 19) (get_lot_size symbol) ∧
    get_lot_size "NIFTY" = 50 ∧ get_lot_size "BANKNIFTY" = 15 ∧
    (symbol ≠ "NIFTY" → symbol ≠ "BANKNIFTY" → get_lot_size symbol = 500) ∧
    0 < get_lot_size symbol := by
  obtain ⟨-, -, h1, h2, h3, h4⟩ := parse_some_fields record symbol q h
  refine ⟨h1, h2, h3, h4, by norm_num [get_lot_size],
    by unfold get_lot_size; rw [if_neg (by decide), if_pos rfl],
    fun hn hb => by simp [get_lot_size, hn, hb], get_lot_size_pos symbol⟩

/-- C5, witness: the normalization theorem applied to a concrete
well-formed NIFTY record (call OI 100, call volume 250, put volume 0):
the parsed OI is `100 / 50 = 2`, volume `250 / 50 = 5`, and the
zero put volume propagates `none`. -/
theorem C5_witness :
    parse_option_chain_record c5_witness_record "NIFTY" = some c5_quote ∧
    c5_quote.call.oi =
      normalizedValue (getF c5_witness_record 3) (get_lot_size "NIFTY") ∧
    c5_quote.call.oi = some 2 ∧ c5_quote.put.volume = none := by
  have h : parse_option_chain_record c5_witness_record "NIFTY" =
      some c5_quote := by
    norm_num [c5_witness_record, c5_quote, parse_option_chain_record,
      normalizeField, getF, get_lot_size, FieldVal.truthy]
  exact ⟨h, (C5_lot_size_normalization c5_witness_record "NIFTY" c5_quote h).1,
    rfl, rfl⟩

/-- C9: whenever a raw OI or volume field of a successfully parsed
record is the number `0`, the corresponding normalized slot is `none`
rather than `0` — the truthiness guard treats a zero raw value like a
missing one. -/
theorem C9_zero_raw_propagates_null (record : List FieldVal)
    (symbol : String) (q : OptionQuote)
    (h : parse_option_chain_record record symbol = some q) :
    (getF record 3 = FieldVal.num 0 → q.call.oi = none) ∧
    (getF record 9 = FieldVal.num 0 → q.call.volume = none) ∧
    (getF record 16 = FieldVal.num 0 → q.put.oi = none) ∧
    (getF record 19 = FieldVal.num 0 → q.put.volume = none) := by
  obtain ⟨-, -, h1, h2, h3, h4⟩ := parse_some_fields record symbol q h
  refine ⟨fun h0 => ?_, fun h0 => ?_, fun h0 => ?_, fun h0 => ?_⟩ <;>
    simp [h1, h2, h3, h4, h0, normalizedValue]

/-- C9, witness: applied to a concrete record with zero raw call OI and
put volume: both normalized slots are `none` while the nonzero call
volume normalizes to `150 / 500` (non-index symbol). -/
theorem C9_witness :
    parse_option_chain_record c9_record "RELIANCE" = some c9_quote ∧
    c9_quote.call.oi = none ∧ c9_quote.put.volume = none := by
  have h : parse_option_chain_record c9_record "RELIANCE" = some c9_quote := by
    have hl : get_lot_size "RELIANCE" = 500 := by
      unfold get_lot_size
      rw [if_neg (by decide), if_neg (by decide)]
    norm_num [c9_record, c9_quote, parse_option_chain_record, normalizeField,
      getF, hl, FieldVal.truthy]
  exact ⟨h,
    (C9_zero_raw_propagates_null c9_record "RELIANCE" c9_quote h).1
      (by norm_num [c9_record, getF]),
    (C9_zero_raw_propagates_null c9_record "RELIANCE" c9_quote h).2.2.2
      (by norm_num [c9_record, getF])⟩

/-- C7: with the database available, a non-empty historical series and a
non-null current IV yield `round2 (100 · #{historical < current} / #total)`;
an empty series or a null current IV yields null.  The claim's three
worked examples are included: series `[10,15,20,25,30]` with current 22,
5 and 35 give 60, 0 and 100. -/
theorem C7_percentile_formula (hist : List ℚ) (civ : ℚ) :
    (hist ≠ [] → calculate_iv_percentile (some hist) (some civ) =
      some (round2 (100 * ((hist.filter (fun x => x < civ)).length : ℚ) /
        hist.length))) ∧
    calculate_iv_percentile (some []) (some civ) = none ∧
    calculate_iv_percentile (some hist) none = none ∧
    calculate_iv_percentile (some [10, 15, 20, 25, 30]) (some 22) = some 60 ∧
    calculate_iv_percentile (some [10, 15, 20, 25, 30]) (some 5) = some 0 ∧
    calculate_iv_percentile (some [10, 15, 20, 25, 30]) (some 35) = some 100 := by
  refine ⟨fun hne => ?_, by simp [calculate_iv_percentile], rfl, ?_, ?_, ?_⟩
  · simp only [calculate_iv_percentile, if_neg hne]
    congr 1
    congr 1
    ring
  · norm_num [calculate_iv_percentile, round2, roundHalfEven, List.filter,
      List.cons_ne_nil]
  · norm_num [calculate_iv_percentile, round2, roundHalfEven, List.filter,
      List.cons_ne_nil]
  · norm_num [calculate_iv_percentile, round2, roundHalfEven, List.filter,
      List.cons_ne_nil]

/-- C7, witness: the formula applied to the concrete series `[12, 18]`
with current IV 15 (one historical value strictly below). -/
theorem C7_witness :
    calculate_iv_percentile (some [12, 18]) (some 15) =
      some (round2 (100 * (([(12:ℚ), 18].filter (fun x => x < 15)).length : ℚ) /
        ([(12:ℚ), 18].length))) :=
  (C7_percentile_formula [12, 18] 15).1 (by simp)

/-- C1, counterexample: with eleven candidates all within 5% of spot
100, the source's aggregation keeps only the 10 closest (average IV
0.10 → 10.0) while the claimed "select all candidates within 5%"
behaviour would average all eleven (→ 10.91), so the claim is false as
stated. -/
theorem C1_counterexample :
    extract_iv_aggregation c1_candidates 100 = some 10 ∧
    extract_iv_aggregation_claim c1_candidates 100 = some (1091/100) ∧
    (10 : ℚ) ≠ 1091/100 := by
  refine ⟨?_, ?_, by norm_num⟩
  · norm_num [c1_candidates, extract_iv_aggregation, List.insertionSort,
      List.orderedInsert, round2, roundHalfEven, List.cons_ne_nil]
  · norm_num [c1_candidates, extract_iv_aggregation_claim, List.insertionSort,
      List.orderedInsert, round2, roundHalfEven, List.cons_ne_nil]

/-- C1, amended: the aggregator first restricts to the 10 candidates
closest to spot; among those it selects the ones within 5% of spot and
returns their average ×100 rounded to 2 decimals, falling back to the
single closest candidate when none qualifies, and null when there are
no candidates.  In particular, whenever the chain produces at most 10
IV candidates (each with nonzero IV, as the upstream [5%, 200%] filter
guarantees), it coincides with the claimed behaviour
`extract_iv_aggregation_claim`. -/
theorem C1_aggregation_top10 (l : List (ℚ × ℚ)) (spot : ℚ)
    (hlen : l.length ≤ 10) (hnz : ∀ p ∈ l, p.2 ≠ 0) :
    extract_iv_aggregation l spot = extract_iv_aggregation_claim l spot := by
  simp only [extract_iv_aggregation, extract_iv_aggregation_claim]
  by_cases hl : l = []
  · simp [hl]
  · rw [if_neg hl, if_neg hl]
    have hperm : List.Perm (l.insertionSort (fun a b => a.1 ≤ b.1)) l :=
      List.perm_insertionSort _ l
    have hslen : (l.insertionSort (fun a b => a.1 ≤ b.1)).length ≤ 10 := by
      rw [hperm.length_eq]; exact hlen
    rw [List.take_of_length_le hslen]
    have hfilt : List.Perm ((l.insertionSort (fun a b => a.1 ≤ b.1)).filter
        (fun p => decide (p.1 / spot < 5/100)))
        (l.filter (fun p => decide (p.1 / spot < 5/100))) :=
      hperm.filter _
    have hmap : List.Perm (((l.insertionSort (fun a b => a.1 ≤ b.1)).filter
        (fun p => decide (p.1 / spot < 5/100))).map (fun p => p.2))
        ((l.filter (fun p => decide (p.1 / spot < 5/100))).map (fun p => p.2)) :=
      hfilt.map _
    have hsum := hmap.sum_eq
    have hlen2 := hmap.length_eq
    by_cases hw : ((l.filter (fun p => decide (p.1 / spot < 5/100))).map
        (fun p => p.2)) = []
    · have hw' : (((l.insertionSort (fun a b => a.1 ≤ b.1)).filter
          (fun p => decide (p.1 / spot < 5/100))).map (fun p => p.2)) = [] := by
        rw [← List.length_eq_zero] at hw ⊢
        rw [hlen2, hw]
      rw [if_neg (by simpa using hw'), if_neg (by simpa using hw)]
      rcases hh : (l.insertionSort (fun a b => a.1 ≤ b.1)).head? with _ | closest
      · simp only [hh]
      · have hmem : closest ∈ l.insertionSort (fun a b => a.1 ≤ b.1) :=
          List.mem_of_mem_head? (by rw [hh]; rfl)
        have hcl : closest ∈ l := hperm.mem_iff.1 hmem
        simp only [hh]
        rw [if_pos (hnz closest hcl)]
    · have hw' : ¬(((l.insertionSort (fun a b => a.1 ≤ b.1)).filter
          (fun p => decide (p.1 / spot < 5/100))).map (fun p => p.2)) = [] := by
        rw [← List.length_eq_zero] at hw ⊢
        omega
      rw [if_pos (by simpa using hw'), if_pos (by simpa using hw), hsum, hlen2]

/-- C1, witness: the amended equivalence applied to the spec §8
scenario — two candidates at distances 10 and 40 from spot 18060 with
IVs 0.22 and 0.24, both within the 5% band: both the source aggregation
and the claimed behaviour return `avg(0.22, 0.24) · 100 = 23.0`. -/
theorem C1_witness :
    extract_iv_aggregation [(10, 11/50), (40, 6/25)] 18060 =
      extract_iv_aggregation_claim [(10, 11/50), (40, 6/25)] 18060 ∧
    extract_iv_aggregation [(10, 11/50), (40, 6/25)] 18060 = some 23 := by
  constructor
  · exact C1_aggregation_top10 [(10, 11/50), (40, 6/25)] 18060
      (by norm_num) (by norm_num)
  · norm_num [extract_iv_aggregation, List.insertionSort, List.orderedInsert,
      round2, roundHalfEven, List.cons_ne_nil]

/-- C3, counterexample: the same arguments given to the embedded
functions with a different ambient state give different results — the
time-to-expiry of one fixed expiry date changes when only the clock
advances, and the IV percentile of one fixed current IV changes when
only the database contents change.  So "no dependence on the current
clock or a database" is false for these two core functions. -/
theorem C3_counterexample :
    calculate_time_to_expiry 86400 0 ≠ calculate_time_to_expiry 86400 43200 ∧
    calculate_iv_percentile (some [1]) (some 2) ≠
      calculate_iv_percentile (some [3]) (some 2) := by
  constructor
  · norm_num [calculate_time_to_expiry]
  · norm_num [calculate_iv_percentile, round2, roundHalfEven, List.filter]

/-- C3, amended: the record parser, pricer, solver, aggregation and the
percentile arithmetic are pure functions of their explicit arguments;
but time-to-expiry reads the current clock and the percentile
calculation reads the database, so those two are deterministic only
relative to an explicit clock / database snapshot: the clock enters
`calculate_time_to_expiry` only through the difference `expiry − now`,
and the database enters `calculate_iv_percentile` only through the
multiset of stored historical IVs. -/
theorem C3_determinism :
    (∀ e n d : ℚ, calculate_time_to_expiry (e + d) (n + d) =
      calculate_time_to_expiry e n) ∧
    (∀ h₁ h₂ : List ℚ, ∀ c : Option ℚ, List.Perm h₁ h₂ →
      calculate_iv_percentile (some h₁) c = calculate_iv_percentile (some h₂) c) := by
  constructor
  · intro e n d
    unfold calculate_time_to_expiry
    have hd : e + d - (n + d) = e - n := by ring
    rw [hd]
  · intro h₁ h₂ c hp
    cases c with
    | none => rfl
    | some civ =>
      simp only [calculate_iv_percentile]
      have hlen := hp.length_eq
      have hfl := (hp.filter (fun iv => decide (iv < civ))).length_eq
      have hnil : (h₁ = []) ↔ (h₂ = []) := by
        rw [← List.length_eq_zero, ← List.length_eq_zero, hlen]
      by_cases h1 : h₁ = []
      · rw [if_pos h1, if_pos (hnil.1 h1)]
      · rw [if_neg h1, if_neg (fun hh => h1 (hnil.2 hh)), hfl, hlen]

/-- C3, witness: the invariances at concrete inputs — shifting both the
expiry and the clock by 100 seconds leaves time-to-expiry unchanged,
and permuting the stored series `[1, 2]` to `[2, 1]` leaves the
percentile unchanged. -/
theorem C3_witness :
    calculate_time_to_expiry (86400 + 100) (0 + 100) =
      calculate_time_to_expiry 86400 0 ∧
    calculate_iv_percentile (some [1, 2]) (some 3) =
      calculate_iv_percentile (some [2, 1]) (some 3) :=
  ⟨C3_determinism.1 86400 0 100,
   C3_determinism.2 [1, 2] [2, 1] (some 3) (List.Perm.swap 2 1 [])⟩

/-! ## Claim theorems: Black-Scholes degenerate cases -/

/-- C6: whenever `time_to_expiry ≤ 0` or `volatility ≤ 0`,
`black_scholes_price` returns the intrinsic value
(`max (S−K) 0` for a call, `max (K−S) 0` otherwise) and
`black_scholes_vega` returns 0; and for all inputs the price returned
is non-negative. -/
theorem C6_degenerate_and_nonneg (spot strike time_to_expiry
    risk_free_rate volatility : ℝ) (option_type : String) :
    ((time_to_expiry ≤ 0 ∨ volatility ≤ 0) →
      (black_scholes_price spot strike time_to_expiry risk_free_rate
          volatility option_type =
        (if option_type = "call" then max (spot - strike) 0
         else max (strike - spot) 0)) ∧
      black_scholes_vega spot strike time_to_expiry risk_free_rate
        volatility = 0) ∧
    0 ≤ black_scholes_price spot strike time_to_expiry risk_free_rate
      volatility option_type := by
  constructor
  · intro hdeg
    constructor
    · unfold black_scholes_price
      rcases hdeg with hT | hv
      · rw [if_pos hT]
      · by_cases hT : time_to_expiry ≤ 0
        · rw [if_pos hT]
        · rw [if_neg hT, if_pos hv]
    · unfold black_scholes_vega
      rw [if_pos hdeg]
  · unfold black_scholes_price
    split_ifs <;> simp [le_max_right]

/-- C6, witness: at `T = 0` the call price is the intrinsic value
`max (100 − 90) 0` and vega is 0, and the price is non-negative. -/
theorem C6_witness :
    (black_scholes_price 100 90 0 0.05 0.2 "call" =
      (if ("call" : String) = "call" then max ((100:ℝ) - 90) 0
       else max ((90:ℝ) - 100) 0)) ∧
    black_scholes_vega 100 90 0 0.05 0.2 = 0 ∧
    0 ≤ black_scholes_price 100 90 0 0.05 0.2 "call" := by
  have h := C6_degenerate_and_nonneg 100 90 0 0.05 0.2 "call"
  have h1 := h.1 (Or.inl le_rfl)
  exact ⟨h1.1, h1.2, h.2⟩

/-! ## Claim theorems: the implied-volatility solver on expired options -/

/-- C10: for every spot, strike, rate, observed price and side,
`calculate_implied_volatility` with `time_to_expiry ≤ 0` returns `none`
immediately — by the guard at `server.py:339-340`, before the
Newton-Raphson loop and without reaching the bisection fallback. -/
theorem C10_expired_returns_none (spot strike time_to_expiry
    risk_free_rate option_price : ℝ) (option_type : String)
    (h : time_to_expiry ≤ 0) :
    calculate_implied_volatility spot strike time_to_expiry risk_free_rate
      option_price option_type = none := by
  unfold calculate_implied_volatility
  rw [if_pos h]

/-- C10, witness: the guard applied at `T = 0` for a call and at
`T = −1` for a put. -/
theorem C10_witness :
    calculate_implied_volatility 18000 18100 0 0.065 250 "call" = none ∧
    calculate_implied_volatility 18000 18100 (-1) 0.065 250 "put" = none :=
  ⟨C10_expired_returns_none 18000 18100 0 0.065 250 "call" le_rfl,
   C10_expired_returns_none 18000 18100 (-1) 0.065 250 "put" (by norm_num)⟩

/-! ## The standard normal CDF: analytic facts -/

open Real MeasureTheory intervalIntegral Filter Topology

lemma integrable_exp_neg_sq : Integrable (fun t : ℝ => Real.exp (-t^2)) := by
  have h := integrable_exp_neg_mul_sq (show (0:ℝ) < 1 by norm_num)
  simpa using h

lemma hasDerivAt_erf_integral (x : ℝ) :
    HasDerivAt (fun u : ℝ => ∫ t in (0:ℝ)..u, Real.exp (-t^2))
      (Real.exp (-x^2)) x := by
  have hc : Continuous fun t : ℝ => Real.exp (-t^2) := by
    continuity
  exact integral_hasDerivAt_right
    integrable_exp_neg_sq.intervalIntegrable
    (hc.stronglyMeasurable.stronglyMeasurableAtFilter)
    hc.continuousAt

lemma hasDerivAt_erf (x : ℝ) :
    HasDerivAt erf (2 / Real.sqrt Real.pi * Real.exp (-x^2)) x := by
  simpa [erf] using (hasDerivAt_erf_integral x).const_mul (2 / Real.sqrt Real.pi)

lemma sqrt_two_pi_eq : Real.sqrt (2 * Real.pi) = Real.sqrt 2 * Real.sqrt Real.pi :=
  Real.sqrt_mul (by norm_num) _

lemma hasDerivAt_normal_cdf (x : ℝ) :
    HasDerivAt normal_cdf (normal_pdf x) x := by
  have h1 : HasDerivAt (fun y : ℝ => y / Real.sqrt 2) (1 / Real.sqrt 2) x := by
    simpa using (hasDerivAt_id x).div_const (Real.sqrt 2)
  have h2 := (hasDerivAt_erf (x / Real.sqrt 2)).comp x h1
  have h3 : HasDerivAt normal_cdf
      (0.5 * (2 / Real.sqrt Real.pi * Real.exp (-(x / Real.sqrt 2)^2) *
        (1 / Real.sqrt 2))) x := by
    unfold normal_cdf
    have h4 := ((hasDerivAt_const x (1:ℝ)).add h2).const_mul (0.5 : ℝ)
    simpa [Function.comp] using h4
  convert h3 using 1
  have hs2 : Real.sqrt 2 > 0 := by positivity
  have hsp : Real.sqrt Real.pi > 0 := Real.sqrt_pos.2 Real.pi_pos
  have harg : -(x / Real.sqrt 2)^2 = -0.5 * x * x := by
    rw [div_pow, Real.sq_sqrt (by norm_num : (2:ℝ) ≥ 0)]
    ring
  unfold normal_pdf
  rw [harg, sqrt_two_pi_eq]
  field_simp
  ring

lemma erf_integral_neg (x : ℝ) :
    (∫ t in (0:ℝ)..(-x), Real.exp (-t^2)) =
      -(∫ t in (0:ℝ)..x, Real.exp (-t^2)) := by
  have h := integral_comp_neg (a := (0:ℝ)) (b := x)
    (f := fun t : ℝ => Real.exp (-t^2))
  simp only [neg_neg, neg_sq, neg_zero] at h
  have h2 : (∫ t in (-x)..(0:ℝ), Real.exp (-t^2)) =
      -∫ t in (0:ℝ)..(-x), Real.exp (-t^2) := integral_symm 0 (-x)
  rw [h2] at h
  linarith

lemma erf_neg (x : ℝ) : erf (-x) = -erf x := by
  unfold erf
  rw [erf_integral_neg]
  ring

lemma normal_cdf_neg (x : ℝ) : normal_cdf (-x) = 1 - normal_cdf x := by
  unfold normal_cdf
  rw [show -x / Real.sqrt 2 = -(x / Real.sqrt 2) by ring, erf_neg]
  ring

lemma integral_Ioi_exp_neg_sq : (∫ t in Set.Ioi (0:ℝ), Real.exp (-t^2)) =
    Real.sqrt Real.pi / 2 := by
  have h := integral_gaussian_Ioi 1
  simpa using h

lemma erf_integral_nonneg {x : ℝ} (hx : 0 ≤ x) :
    0 ≤ ∫ t in (0:ℝ)..x, Real.exp (-t^2) :=
  intervalIntegral.integral_nonneg hx (fun _ _ => (Real.exp_pos _).le)

lemma erf_integral_le {x : ℝ} (hx : 0 ≤ x) :
    (∫ t in (0:ℝ)..x, Real.exp (-t^2)) ≤ Real.sqrt Real.pi / 2 := by
  rw [← integral_Ioi_exp_neg_sq]
  rw [intervalIntegral.integral_of_le hx]
  apply setIntegral_mono_set
  · exact integrable_exp_neg_sq.integrableOn
  · exact Filter.Eventually.of_forall (fun _ => (Real.exp_pos _).le)
  · exact Filter.Eventually.of_forall Set.Ioc_subset_Ioi_self

lemma erf_le_one (x : ℝ) : erf x ≤ 1 := by
  unfold erf
  have hsp : (0:ℝ) < Real.sqrt Real.pi := Real.sqrt_pos.2 Real.pi_pos
  rcases le_or_lt 0 x with hx | hx
  · have h := erf_integral_le hx
    rw [show (1:ℝ) = 2 / Real.sqrt Real.pi * (Real.sqrt Real.pi / 2) by
      field_simp]
    apply mul_le_mul_of_nonneg_left h (by positivity)
  · have h : (∫ t in (0:ℝ)..x, Real.exp (-t^2)) ≤ 0 := by
      have := erf_integral_nonneg (x := -x) (by linarith)
      rw [erf_integral_neg] at this
      linarith
    calc 2 / Real.sqrt Real.pi * ∫ t in (0:ℝ)..x, Real.exp (-t^2)
        ≤ 0 := mul_nonpos_of_nonneg_of_nonpos (by positivity) h
      _ ≤ 1 := by norm_num

lemma neg_one_le_erf (x : ℝ) : -1 ≤ erf x := by
  have h := erf_le_one (-x)
  rw [erf_neg] at h
  linarith

lemma normal_cdf_nonneg (x : ℝ) : 0 ≤ normal_cdf x := by
  unfold normal_cdf
  have := neg_one_le_erf (x / Real.sqrt 2)
  linarith

lemma normal_cdf_le_one (x : ℝ) : normal_cdf x ≤ 1 := by
  unfold normal_cdf
  have := erf_le_one (x / Real.sqrt 2)
  linarith

lemma normal_pdf_pos (x : ℝ) : 0 < normal_pdf x := by
  unfold normal_pdf
  have : (0:ℝ) < Real.sqrt (2 * Real.pi) :=
    Real.sqrt_pos.2 (by positivity)
  positivity

lemma normal_cdf_mono : Monotone normal_cdf := by
  apply monotone_of_deriv_nonneg
  · exact fun x => (hasDerivAt_normal_cdf x).differentiableAt
  · intro x
    rw [(hasDerivAt_normal_cdf x).deriv]
    exact (normal_pdf_pos x).le

lemma integral_Iic_exp_neg_sq : (∫ t in Set.Iic (0:ℝ), Real.exp (-t^2)) =
    Real.sqrt Real.pi / 2 := by
  have h := integral_comp_neg_Iic (0:ℝ)
    (fun t : ℝ => Real.exp (-t^2))
  simp only [neg_sq, neg_zero] at h
  rw [h]
  exact integral_Ioi_exp_neg_sq

lemma tendsto_erf_integral_atBot :
    Tendsto (fun y : ℝ => ∫ t in (0:ℝ)..y, Real.exp (-t^2)) atBot
      (𝓝 (-(Real.sqrt Real.pi / 2))) := by
  have h := intervalIntegral_tendsto_integral_Iic (0:ℝ)
    (integrable_exp_neg_sq.integrableOn) tendsto_id
  rw [integral_Iic_exp_neg_sq] at h
  have heq : ∀ y : ℝ, (∫ t in (0:ℝ)..y, Real.exp (-t^2)) =
      -∫ t in y..(0:ℝ), Real.exp (-t^2) := fun y => integral_symm y 0
  simp only [heq]
  exact h.neg

lemma tendsto_erf_atBot : Tendsto erf atBot (𝓝 (-1)) := by
  unfold erf
  have hsp : (0:ℝ) < Real.sqrt Real.pi := Real.sqrt_pos.2 Real.pi_pos
  have h := tendsto_erf_integral_atBot.const_mul (2 / Real.sqrt Real.pi)
  convert h using 2
  field_simp
  ring

lemma tendsto_normal_cdf_atBot : Tendsto normal_cdf atBot (𝓝 0) := by
  unfold normal_cdf
  have hdiv : Tendsto (fun x : ℝ => x / Real.sqrt 2) atBot atBot := by
    apply Filter.Tendsto.atBot_div_const (Real.sqrt_pos.2 (by norm_num)) tendsto_id
  have h := (tendsto_erf_atBot.comp hdiv).const_add (1:ℝ)
  have h2 := h.const_mul (0.5:ℝ)
  simpa using h2

lemma normal_pdf_sub (x s : ℝ) :
    normal_pdf (x - s) = Real.exp (x * s - s^2 / 2) * normal_pdf x := by
  unfold normal_pdf
  rw [show Real.exp (x * s - s^2 / 2) *
      (1 / Real.sqrt (2 * Real.pi) * Real.exp (-0.5 * x * x)) =
      1 / Real.sqrt (2 * Real.pi) *
      (Real.exp (x * s - s^2 / 2) * Real.exp (-0.5 * x * x)) from by ring,
    ← Real.exp_add]
  congr 2
  ring

/-- Key inequality: `Φ(x−s) ≤ exp(xs − s²/2) · Φ(x)` for `s ≥ 0`. -/
lemma normal_cdf_shift_le (s : ℝ) (hs : 0 ≤ s) (x : ℝ) :
    normal_cdf (x - s) ≤ Real.exp (x * s - s^2 / 2) * normal_cdf x := by
  rcases eq_or_lt_of_le hs with hs0 | hs0
  · subst hs0
    simp
  set F : ℝ → ℝ :=
    fun y => Real.exp (y * s - s^2 / 2) * normal_cdf y - normal_cdf (y - s)
  have hF : ∀ y : ℝ, HasDerivAt F
      (s * (Real.exp (y * s - s^2 / 2) * normal_cdf y)) y := by
    intro y
    have hlin : HasDerivAt (fun y : ℝ => y * s - s^2 / 2) s y := by
      simpa using ((hasDerivAt_id y).mul_const s).sub_const (s^2 / 2)
    have hexp := hlin.exp
    have hmul := hexp.mul (hasDerivAt_normal_cdf y)
    have hsub : HasDerivAt (fun y : ℝ => normal_cdf (y - s))
        (normal_pdf (y - s)) y := by
      have hid : HasDerivAt (fun y : ℝ => y - s) 1 y := by
        simpa using (hasDerivAt_id y).sub_const s
      simpa using (hasDerivAt_normal_cdf (y - s)).comp y hid
    have h := hmul.sub hsub
    convert h using 1
    rw [normal_pdf_sub]
    ring
  have hFmono : Monotone F := by
    apply monotone_of_deriv_nonneg
    · exact fun y => (hF y).differentiableAt
    · intro y
      rw [(hF y).deriv]
      have h1 : (0:ℝ) < Real.exp (y * s - s^2 / 2) := Real.exp_pos _
      have h2 := normal_cdf_nonneg y
      positivity
  have hFlim : Tendsto F atBot (𝓝 0) := by
    have hexp0 : Tendsto (fun y : ℝ => Real.exp (y * s - s^2 / 2)) atBot (𝓝 0) := by
      apply Real.tendsto_exp_atBot.comp
      apply Filter.tendsto_atBot_add_const_right
      exact Filter.Tendsto.atBot_mul_const hs0 tendsto_id
    have hprod : Tendsto (fun y : ℝ => Real.exp (y * s - s^2 / 2) * normal_cdf y)
        atBot (𝓝 0) := by
      apply squeeze_zero
      · intro y
        exact mul_nonneg (Real.exp_pos _).le (normal_cdf_nonneg y)
      · intro y
        calc Real.exp (y * s - s^2 / 2) * normal_cdf y
            ≤ Real.exp (y * s - s^2 / 2) * 1 :=
              mul_le_mul_of_nonneg_left (normal_cdf_le_one y) (Real.exp_pos _).le
          _ = Real.exp (y * s - s^2 / 2) := mul_one _
      · exact hexp0
    have hcdf : Tendsto (fun y : ℝ => normal_cdf (y - s)) atBot (𝓝 0) := by
      apply tendsto_normal_cdf_atBot.comp
      exact Filter.tendsto_atBot_add_const_right _ _ tendsto_id
    have := hprod.sub hcdf
    simpa using this
  have hge : 0 ≤ F x := by
    apply le_of_tendsto hFlim
    filter_upwards [Filter.eventually_le_atBot x] with y hy
    exact hFmono hy
  have : normal_cdf (x - s) ≤ Real.exp (x * s - s^2 / 2) * normal_cdf x := by
    have := hge
    simp only [F] at this
    linarith
  exact this

/-! ## Claim theorems: put-call parity -/

/-- C8: for positive spot, strike, time and volatility and any rate,
the Black-Scholes call price minus the put price equals
`S − K·exp(−rT)` — exactly, hence in particular within the claimed
1e-6 tolerance.  (Both closed-form prices are shown non-negative, so
the `max · 0` floor in the code is inert.) -/
theorem C8_put_call_parity (S K T r σ : ℝ) (hS : 0 < S) (hK : 0 < K)
    (hT : 0 < T) (hσ : 0 < σ) :
    black_scholes_price S K T r σ "call" - black_scholes_price S K T r σ "put"
      = S - K * Real.exp (-r * T) := by
  have hTn : ¬ T ≤ 0 := not_le.2 hT
  have hσn : ¬ σ ≤ 0 := not_le.2 hσ
  have hsq : 0 < Real.sqrt T := Real.sqrt_pos.2 hT
  simp only [black_scholes_price, if_neg hTn, if_neg hσn]
  rw [if_pos trivial, if_neg (show ¬ ("put":String) = "call" by decide)]
  set s := σ * Real.sqrt T with hs_def
  have hs : 0 < s := mul_pos hσ hsq
  set d1 := (Real.log (S / K) + (r + 0.5 * σ * σ) * T) / s with hd1_def
  set d2 := d1 - s with hd2_def
  set E := Real.exp (-r * T) with hE_def
  have hs2 : s^2 = σ^2 * T := by
    rw [hs_def, mul_pow, Real.sq_sqrt hT.le]
  have hd1s : d1 * s = Real.log (S / K) + (r + 0.5 * σ * σ) * T := by
    rw [hd1_def]
    field_simp
  have hθ : d1 * s - s^2/2 = Real.log (S/K) + r * T := by
    rw [hd1s, hs2]
    ring
  have hKE : K * E = S * Real.exp (-(d1 * s - s^2/2)) := by
    rw [hθ, neg_add, Real.exp_add, Real.exp_neg, Real.exp_log (div_pos hS hK),
      hE_def]
    rw [show -r * T = -(r * T) by ring]
    field_simp
  have hcall_ge : K * E * normal_cdf d2 ≤ S * normal_cdf d1 := by
    have hshift := normal_cdf_shift_le s hs.le d1
    calc K * E * normal_cdf d2
        = S * (Real.exp (-(d1*s - s^2/2)) * normal_cdf (d1 - s)) := by
          rw [hd2_def, hKE]; ring
      _ ≤ S * (Real.exp (-(d1*s - s^2/2)) *
          (Real.exp (d1*s - s^2/2) * normal_cdf d1)) := by
          apply mul_le_mul_of_nonneg_left _ hS.le
          exact mul_le_mul_of_nonneg_left hshift (Real.exp_pos _).le
      _ = S * normal_cdf d1 := by
          rw [show Real.exp (-(d1*s - s^2/2)) *
              (Real.exp (d1*s - s^2/2) * normal_cdf d1) =
              Real.exp (-(d1*s - s^2/2)) * Real.exp (d1*s - s^2/2) *
                normal_cdf d1 from by ring, ← Real.exp_add]
          simp
  have hput_ge : S * normal_cdf (-d1) ≤ K * E * normal_cdf (-d2) := by
    have hshift := normal_cdf_shift_le s hs.le (-d2)
    have h1 : -d2 - s = -d1 := by rw [hd2_def]; ring
    have h2 : (-d2) * s - s^2/2 = -(d1*s - s^2/2) := by rw [hd2_def]; ring
    rw [h1, h2] at hshift
    calc S * normal_cdf (-d1)
        ≤ S * (Real.exp (-(d1*s - s^2/2)) * normal_cdf (-d2)) :=
          mul_le_mul_of_nonneg_left hshift hS.le
      _ = K * E * normal_cdf (-d2) := by rw [hKE]; ring
  rw [max_eq_left (by linarith), max_eq_left (by linarith)]
  rw [normal_cdf_neg d1, normal_cdf_neg d2]
  ring

/-- C8, witness: parity at `S = K = T = σ = 1`, `r = 0`. -/
theorem C8_witness :
    black_scholes_price 1 1 1 0 1 "call" - black_scholes_price 1 1 1 0 1 "put"
      = 1 - 1 * Real.exp (-0 * 1) :=
  C8_put_call_parity 1 1 1 0 1 one_pos one_pos one_pos one_pos

/-! ## The round-trip failure analysis (claim C2)

At `S = e⁹, K = 1, T = 1, r = 0` the call price is essentially the
intrinsic value for every volatility in the solver's bracket: the total
price variation over `σ ∈ [0.05, 0.2]` is below `1e-4` times the vega at
the 0.20 seed, so the first Newton-Raphson step already satisfies the
step-size convergence test while still at the seed, far from the true
volatility 0.05. -/

lemma c2_bs_eq (v : ℝ) (hv : 0 < v) :
    black_scholes_price (Real.exp 9) 1 1 0 v "call" = max (c2_formula v) 0 := by
  have h1 : ¬ (1:ℝ) ≤ 0 := by norm_num
  have hvn : ¬ v ≤ 0 := not_le.2 hv
  simp only [black_scholes_price, if_neg h1, if_neg hvn]
  rw [if_pos trivial]
  have hd : (Real.log (Real.exp 9 / 1) + (0 + 0.5 * v * v) * 1) /
      (v * Real.sqrt 1) = c2_d1 v := by
    rw [div_one, Real.log_exp, Real.sqrt_one, mul_one]
    unfold c2_d1
    ring_nf
  rw [hd, Real.sqrt_one, mul_one]
  unfold c2_formula
  norm_num

lemma c2_vega_eq (v : ℝ) (hv : 0 < v) :
    black_scholes_vega (Real.exp 9) 1 1 0 v = c2_vega v := by
  have hvn : ¬ ((1:ℝ) ≤ 0 ∨ v ≤ 0) := by
    push_neg
    exact ⟨by norm_num, hv⟩
  simp only [black_scholes_vega, if_neg hvn]
  have hd : (Real.log (Real.exp 9 / 1) + (0 + 0.5 * v * v) * 1) /
      (v * Real.sqrt 1) = c2_d1 v := by
    rw [div_one, Real.log_exp, Real.sqrt_one, mul_one]
    unfold c2_d1
    ring_nf
  rw [hd, Real.sqrt_one, mul_one]
  unfold c2_vega
  ring

lemma c2_vega_pos (v : ℝ) : 0 < c2_vega v :=
  mul_pos (Real.exp_pos _) (normal_pdf_pos _)

lemma c2_d1_hasDerivAt (v : ℝ) (hv : 0 < v) :
    HasDerivAt c2_d1 (0.5 - 9 / (v * v)) v := by
  have hnum : HasDerivAt (fun y : ℝ => 9 + 0.5 * y * y)
      (0 + ((0 * v + 0.5 * 1) * v + 0.5 * v * 1)) v := by
    exact (hasDerivAt_const v (9:ℝ)).add
      (((hasDerivAt_const v (0.5:ℝ)).mul (hasDerivAt_id v)).mul (hasDerivAt_id v))
  have h := hnum.div (hasDerivAt_id v) hv.ne'
  unfold c2_d1
  convert h using 1
  field_simp
  ring

lemma c2_formula_hasDerivAt (v : ℝ) (hv : 0 < v) :
    HasDerivAt c2_formula (c2_vega v) v := by
  have hd1 := c2_d1_hasDerivAt v hv
  have h1 := ((hasDerivAt_normal_cdf (c2_d1 v)).comp v hd1).const_mul (Real.exp 9)
  have hd2 : HasDerivAt (fun y : ℝ => c2_d1 y - y) (0.5 - 9 / (v * v) - 1) v :=
    hd1.sub (hasDerivAt_id v)
  have h2 : HasDerivAt (normal_cdf ∘ fun y : ℝ => c2_d1 y - y)
      (normal_pdf (c2_d1 v - v) * (0.5 - 9 / (v * v) - 1)) v :=
    HasDerivAt.comp v (hasDerivAt_normal_cdf _) hd2
  have h := h1.sub h2
  have hpdf : normal_pdf (c2_d1 v - v) = Real.exp 9 * normal_pdf (c2_d1 v) := by
    have hbase := normal_pdf_sub (c2_d1 v) v
    rw [hbase]
    have harg : c2_d1 v * v - v^2/2 = 9 := by
      unfold c2_d1
      field_simp
      ring
    rw [harg]
  unfold c2_formula
  convert h using 1
  rw [hpdf]
  unfold c2_vega
  ring

lemma c2_formula_nonneg (v : ℝ) (hv : 0 < v) : 0 ≤ c2_formula v := by
  unfold c2_formula
  have h1 : normal_cdf (c2_d1 v - v) ≤ normal_cdf (c2_d1 v) :=
    normal_cdf_mono (by linarith)
  have h2 : (1:ℝ) ≤ Real.exp 9 := by
    have := Real.add_one_le_exp (9:ℝ)
    linarith
  have h3 := normal_cdf_nonneg (c2_d1 v)
  nlinarith [mul_nonneg (sub_nonneg.2 h2) h3]

lemma c2_d1_at_02 : c2_d1 0.2 = 45.1 := by
  unfold c2_d1
  norm_num

lemma c2_pointwise (v : ℝ) (h1 : 0.05 ≤ v) (h2 : v ≤ 0.2) :
    c2_vega v ≤ c2_vega 0.2 * Real.exp (10100 * v - 2020) := by
  have hv : (0:ℝ) < v := by linarith
  have harg : -0.5 * c2_d1 v * c2_d1 v ≤
      -0.5 * c2_d1 0.2 * c2_d1 0.2 + (10100 * v - 2020) := by
    rw [c2_d1_at_02]
    have hkey : (3037.005 - 10100 * v) * (v * v) ≤
        0.5 * ((9 + 0.5 * v * v) * (9 + 0.5 * v * v)) := by
      nlinarith [mul_nonneg (mul_nonneg (sub_nonneg.2 h2) (sub_nonneg.2 h2))
          (sub_nonneg.2 h1),
        mul_nonneg (mul_nonneg (mul_nonneg hv.le (sub_nonneg.2 h2))
          (sub_nonneg.2 h2)) (by linarith : (0:ℝ) ≤ 0.2 + v),
        mul_nonneg (sub_nonneg.2 h2)
          (by linarith : (0:ℝ) ≤ 303.50025 - 1512.51125 * v)]
    have hd1sq : 0.5 * c2_d1 v * c2_d1 v =
        0.5 * ((9 + 0.5 * v * v) * (9 + 0.5 * v * v)) / (v * v) := by
      unfold c2_d1
      field_simp
      ring
    have hle : 3037.005 - 10100 * v ≤ 0.5 * c2_d1 v * c2_d1 v := by
      rw [hd1sq]
      rw [le_div_iff₀ (by positivity : (0:ℝ) < v * v)]
      exact hkey
    nlinarith [hle]
  unfold c2_vega normal_pdf
  rw [show Real.exp 9 * (1 / Real.sqrt (2 * Real.pi) *
      Real.exp (-0.5 * c2_d1 0.2 * c2_d1 0.2)) * Real.exp (10100 * v - 2020) =
      Real.exp 9 * (1 / Real.sqrt (2 * Real.pi) *
      (Real.exp (-0.5 * c2_d1 0.2 * c2_d1 0.2) * Real.exp (10100 * v - 2020)))
      from by ring, ← Real.exp_add]
  have hsq : (0:ℝ) < Real.sqrt (2 * Real.pi) := Real.sqrt_pos.2 (by positivity)
  apply mul_le_mul_of_nonneg_left _ (Real.exp_pos 9).le
  apply mul_le_mul_of_nonneg_left _ (by positivity)
  exact Real.exp_le_exp.2 harg

lemma c2_exp_integral :
    (∫ v in (0.05:ℝ)..0.2, Real.exp (10100 * v - 2020)) =
      (1 - Real.exp (-1515)) / 10100 := by
  have hG : ∀ x ∈ Set.uIcc (0.05:ℝ) 0.2,
      HasDerivAt (fun y : ℝ => Real.exp (10100 * y - 2020) / 10100)
        (Real.exp (10100 * x - 2020)) x := by
    intro x _
    have h1 : HasDerivAt (fun y : ℝ => 10100 * y - 2020) 10100 x := by
      simpa using ((hasDerivAt_id x).const_mul (10100:ℝ)).sub_const 2020
    have h2 := (h1.exp).div_const 10100
    convert h2 using 1
    field_simp
  have hint : IntervalIntegrable (fun y : ℝ => Real.exp (10100 * y - 2020))
      MeasureTheory.volume 0.05 0.2 := by
    apply Continuous.intervalIntegrable
    continuity
  have h := intervalIntegral.integral_eq_sub_of_hasDerivAt hG hint
  rw [h]
  norm_num
  ring

lemma c2_vega_continuousOn :
    ContinuousOn c2_vega (Set.uIcc (0.05:ℝ) 0.2) := by
  have hpdf : Continuous normal_pdf := by
    unfold normal_pdf
    continuity
  have hd1 : ContinuousOn c2_d1 (Set.uIcc (0.05:ℝ) 0.2) := by
    unfold c2_d1
    apply ContinuousOn.div
    · exact (by continuity : Continuous fun v : ℝ => 9 + 0.5 * v * v).continuousOn
    · exact continuous_id.continuousOn
    · intro x hx
      rw [Set.uIcc_of_le (by norm_num : (0.05:ℝ) ≤ 0.2)] at hx
      have := hx.1
      positivity
  unfold c2_vega
  exact continuousOn_const.mul (hpdf.comp_continuousOn hd1)

lemma c2_f_bounds :
    0 ≤ c2_formula 0.2 - c2_formula 0.05 ∧
    c2_formula 0.2 - c2_formula 0.05 < c2_vega 0.2 * 0.0001 := by
  have hle : (0.05:ℝ) ≤ 0.2 := by norm_num
  have hderiv : ∀ x ∈ Set.uIcc (0.05:ℝ) 0.2,
      HasDerivAt c2_formula (c2_vega x) x := by
    intro x hx
    rw [Set.uIcc_of_le hle] at hx
    exact c2_formula_hasDerivAt x (by linarith [hx.1])
  have hint : IntervalIntegrable c2_vega MeasureTheory.volume 0.05 0.2 :=
    c2_vega_continuousOn.intervalIntegrable
  have hftc := intervalIntegral.integral_eq_sub_of_hasDerivAt hderiv hint
  constructor
  · rw [← hftc]
    apply intervalIntegral.integral_nonneg hle
    intro x _
    exact (c2_vega_pos x).le
  · rw [← hftc]
    have hintr : IntervalIntegrable
        (fun v : ℝ => c2_vega 0.2 * Real.exp (10100 * v - 2020))
        MeasureTheory.volume 0.05 0.2 := by
      apply Continuous.intervalIntegrable
      continuity
    have hmono := intervalIntegral.integral_mono_on hle hint hintr
      (fun x hx => c2_pointwise x hx.1 hx.2)
    calc (∫ v in (0.05:ℝ)..0.2, c2_vega v)
        ≤ ∫ v in (0.05:ℝ)..0.2, c2_vega 0.2 * Real.exp (10100 * v - 2020) :=
          hmono
      _ = c2_vega 0.2 * ((1 - Real.exp (-1515)) / 10100) := by
          rw [intervalIntegral.integral_const_mul, c2_exp_integral]
      _ < c2_vega 0.2 * 0.0001 := by
          apply mul_lt_mul_of_pos_left _ (c2_vega_pos 0.2)
          have := Real.exp_pos (-1515:ℝ)
          nlinarith

lemma c2_newton_first_step (n : ℕ) :
    newton_loop (Real.exp 9) 1 1 0
      (black_scholes_price (Real.exp 9) 1 1 0 0.05 "call") "call" (n + 1) 0.2 =
    some (0.2 - (c2_formula 0.2 - c2_formula 0.05) / c2_vega 0.2) := by
  have h005 : (0:ℝ) < 0.05 := by norm_num
  have h02 : (0:ℝ) < 0.2 := by norm_num
  have hP : black_scholes_price (Real.exp 9) 1 1 0 0.05 "call" =
      c2_formula 0.05 := by
    rw [c2_bs_eq 0.05 h005, max_eq_left (c2_formula_nonneg 0.05 h005)]
  have hcp : black_scholes_price (Real.exp 9) 1 1 0 0.2 "call" =
      c2_formula 0.2 := by
    rw [c2_bs_eq 0.2 h02, max_eq_left (c2_formula_nonneg 0.2 h02)]
  have hveq : black_scholes_vega (Real.exp 9) 1 1 0 (0.2:ℝ) = c2_vega 0.2 :=
    c2_vega_eq 0.2 h02
  obtain ⟨hf0, hflt⟩ := c2_f_bounds
  have hvpos := c2_vega_pos (0.2:ℝ)
  have hr0 : 0 ≤ (c2_formula 0.2 - c2_formula 0.05) / c2_vega 0.2 :=
    div_nonneg hf0 hvpos.le
  have hrlt : (c2_formula 0.2 - c2_formula 0.05) / c2_vega 0.2 < 0.0001 :=
    (div_lt_iff₀ hvpos).2 (by linarith)
  simp only [newton_loop]
  rw [hveq, if_neg hvpos.ne', hcp, hP]
  rw [min_eq_right (by linarith :
    (0.2:ℝ) - (c2_formula 0.2 - c2_formula 0.05) / c2_vega 0.2 ≤ 5.0)]
  rw [max_eq_right (by linarith :
    (0.001:ℝ) ≤ 0.2 - (c2_formula 0.2 - c2_formula 0.05) / c2_vega 0.2)]
  rw [if_pos]
  rw [abs_sub_comm, abs_of_nonneg (by linarith :
    (0:ℝ) ≤ 0.2 - (0.2 - (c2_formula 0.2 - c2_formula 0.05) / c2_vega 0.2))]
  linarith

/-- C2: the round-trip property fails on the code.  At
`S = e⁹, K = 1, T = 1, r = 0, σ_true = 0.05` (a legal input of the
claim: all quantities positive and `σ_true ∈ [0.05, 1]`), the observed
price is so insensitive to the volatility that the very first
Newton-Raphson step from the 0.20 seed moves by less than the 0.0001
step tolerance: the solver declares convergence and returns a value in
`[0.1999, 0.2]`, off the true volatility by ≈ 0.15 ≫ 0.001. -/
theorem C2_roundtrip_failure :
    ¬ iv_recovers
      (calculate_implied_volatility (Real.exp 9) 1 1 0
        (black_scholes_price (Real.exp 9) 1 1 0 0.05 "call") "call") 0.05 := by
  obtain ⟨hf0, hflt⟩ := c2_f_bounds
  have hvpos := c2_vega_pos (0.2:ℝ)
  have hr0 : 0 ≤ (c2_formula 0.2 - c2_formula 0.05) / c2_vega 0.2 :=
    div_nonneg hf0 hvpos.le
  have hrlt : (c2_formula 0.2 - c2_formula 0.05) / c2_vega 0.2 < 0.0001 :=
    (div_lt_iff₀ hvpos).2 (by linarith)
  intro hrec
  obtain ⟨σ, hσeq, hσabs⟩ := hrec
  rw [calculate_implied_volatility, if_neg (by norm_num : ¬ (1:ℝ) ≤ 0),
    show (100:ℕ) = 99 + 1 from rfl, c2_newton_first_step 99] at hσeq
  have hσ : σ = 0.2 - (c2_formula 0.2 - c2_formula 0.05) / c2_vega 0.2 :=
    Option.some_injective ℝ hσeq.symm
  rw [hσ, abs_sub_comm, abs_of_nonpos (by linarith)] at hσabs
  linarith
